import Mathlib

/-!
# Verification of the AudioFFT spectral pipeline (arduino-audio-tools)

Shallow embedding of `src/AudioLibs/AudioFFT.h` (`audio_tools::AudioFFTBase`
and its helper types).  Floating-point values (`float` magnitudes and
frequencies) are modelled as exact rationals (`Rat`); machine integers are
modelled as `Nat`/`Int` with explicit `% 2^16` where `uint16_t` wrap-around
matters.  The opaque `FFTDriver` collaborator (its concrete implementations
are not part of the shown sources) is modelled from the spec's capability
contract.  Wall-clock time (`millis()`) is passed in as an explicit `now`
parameter; the result callback is recorded as an event rather than executed,
so the synchronous invocation order becomes visible in the event trace.
-/

namespace AudioTools

/-- Embeds `struct AudioFFTResult { int bin; float magnitude; float frequency; }`.
`bin` is only ever assigned loop indices (or 0), so it is modelled as `Nat`;
the two `float` members are modelled as exact rationals. -/
structure AudioFFTResult where
  bin : Nat
  magnitude : Rat
  frequency : Rat
deriving Repr, DecidableEq, Inhabited

/-- Embeds `struct AudioFFTConfig` (channels, bits_per_sample, sample_rate
from `AudioBaseInfo`, plus `channel_used` and the nullable callback pointer;
the function pointer itself is modelled by whether it is non-null). -/
structure AudioFFTConfig where
  channels : Nat := 2
  bits_per_sample : Nat := 16
  sample_rate : Nat := 44100
  channel_used : Nat := 0
  hasCallback : Bool := false
deriving Repr, DecidableEq

/-- Modelled from the spec: the `FFTDriver` capability (§4.1 of the spec).
Concrete driver implementations are not among the shown sources; per the
contract, `isReady()`/`isValid()` is true after a successful `prepare`
(`begin(len)`) and before `release` (`end()`).  We track readiness, the
prepared length, and the number of `fft()` (run) invocations. -/
structure DriverState where
  started : Bool := false
  length : Nat := 0
  fftCount : Nat := 0
deriving Repr, DecidableEq

/-- Modelled from the spec: `FFTDriver::begin(len)` allocates storage for a
transform of the given length and marks the engine ready. -/
def DriverState.beginDriver (len : Nat) (d : DriverState) : DriverState :=
  { d with started := true, length := len }

/-- Modelled from the spec: `FFTDriver::isValid()` is true after a successful
`begin` and before `end`. -/
def DriverState.isValid (d : DriverState) : Bool :=
  d.started

/-- Observable side effects of the pipeline, in program order.  The
`callback` event records the pipeline state (`current_pos`, `timestamp`)
visible to the user callback at the moment it is invoked. -/
inductive Event where
  | setValue (pos : Nat) (val : Int)
  | fftRun
  | callback (pos : Nat) (ts : Nat)
  | driverBegin (len : Nat)
deriving Repr, DecidableEq

/-- Mutable state of `AudioFFTBase`: the window length `len` (set from the
`uint16_t` constructor argument, hence `< 2^16`), the fill cursor
`current_pos`, the configuration record `cfg`, the `timestamp` of the last
completed transform, and the driver state. -/
structure FFTState where
  len : Nat
  current_pos : Nat := 0
  cfg : AudioFFTConfig := {}
  timestamp : Nat := 0
  driver : DriverState := {}
deriving Repr, DecidableEq

/-- Embeds `AudioFFTBase::isPowerOfTwo(uint16_t x) { return (x & (x - 1)) == 0; }`.
The argument is a `uint16_t`, so `x - 1` wraps modulo `2^16` (for `x = 0`
it yields `65535`). -/
def isPowerOfTwo (x : Nat) : Bool :=
  Nat.land (x % 65536) ((x + 65535) % 65536) == 0

/-- Embeds `AudioFFTBase::frequency(int bin)`:
`static_cast<float>(bin) * cfg.sample_rate / len`, in exact rational
arithmetic. -/
def frequency (bin sample_rate len : Nat) : Rat :=
  (bin : Rat) * (sample_rate : Rat) / (len : Rat)

/-- Embeds the scan loop of `AudioFFTBase::result()`:
`for (int j=1;j<len/2;j++) { float m = magnitude(j); if (m>ret_value.magnitude) {...} }`.
`mag` is the driver's post-transform magnitude spectrum; the accumulator
`(bin, m)` is the current maximum.  `k` is the number of remaining loop
iterations (`stop - j` for the C++ loop bound `stop`), so the loop visits
`j, j+1, ..., j+k-1`. -/
def resultAux (mag : Nat → Rat) : Nat → Nat → Nat → Rat → Nat × Rat
  | 0, _, bin, m => (bin, m)
  | k + 1, j, bin, m =>
    if mag j > m then resultAux mag k (j + 1) j (mag j)
    else resultAux mag k (j + 1) bin m

/-- Embeds `AudioFFTBase::result()`: seeds `ret_value` with magnitude 0 and
bin 0, scans bins `1 .. len/2 - 1` (that is `len/2 - 1` iterations starting
at bin 1), then fills in the frequency of the winning bin. -/
def result (mag : Nat → Rat) (len sample_rate : Nat) : AudioFFTResult :=
  let bm := resultAux mag (len / 2 - 1) 1 0 0
  { bin := bm.1, magnitude := bm.2, frequency := frequency bm.1 sample_rate len }

/-- Definition following the C4 claim's words, for comparison with
`result` (it is not a translation of the source): the scan seeds the
initial maximum with the first scanned bin (index 1) and then keeps the
earliest bin on ties (strict improvement only); if `len/2 ≤ 1` it returns
the zero-magnitude bin-0 result. -/
def dominantSpec (mag : Nat → Rat) (len sample_rate : Nat) : AudioFFTResult :=
  if len / 2 ≤ 1 then
    { bin := 0, magnitude := 0, frequency := frequency 0 sample_rate len }
  else
    let bm := resultAux mag (len / 2 - 2) 2 1 (mag 1)
    { bin := bm.1, magnitude := bm.2, frequency := frequency bm.1 sample_rate len }

/-- One shift-and-insert at position `j` of `AudioFFTBase::InsertSorted`:
`for (int i=N-2;i>=j;i--) result[i+1] = result[i]; result[j] = tmp;` —
elements from `j` on move one slot right (the last one falls off) and `tmp`
lands in slot `j`.  The fixed-size C array is modelled as a list whose
length is preserved. -/
def insertAt (l : List AudioFFTResult) (j : Nat) (tmp : AudioFFTResult) :
    List AudioFFTResult :=
  l.take j ++ tmp :: (l.drop j).dropLast

/-- Embeds the loop of `AudioFFTBase::InsertSorted`:
`for (int j=0;j<N;j++) if (tmp.magnitude > result[j].magnitude) { shift; result[j]=tmp; }`.
Note the source has no `break`: the loop keeps scanning (and keeps
inserting) after the first qualifying slot.  `k` counts the remaining
iterations (`k = N - j`). -/
def InsertSortedAux (tmp : AudioFFTResult) :
    Nat → Nat → List AudioFFTResult → List AudioFFTResult
  | 0, _, l => l
  | k + 1, j, l =>
    let l' := if tmp.magnitude > (l.getD j default).magnitude
              then insertAt l j tmp else l
    InsertSortedAux tmp k (j + 1) l'

/-- Embeds `AudioFFTBase::InsertSorted<N>` on an `N`-slot array (the source
returns a constant `false`, which no caller reads, so only the array update
is modelled). -/
def InsertSorted (l : List AudioFFTResult) (tmp : AudioFFTResult) :
    List AudioFFTResult :=
  InsertSortedAux tmp l.length 0 l

/-- Embeds the scan loop of `AudioFFTBase::resultArray<N>`:
`for (int j=1;j<len/2;j++) { act.magnitude = magnitude(j); act.bin = j; act.frequency = frequency(j); insertSorted(result, act); }`.
`k` counts the remaining iterations, as in `resultAux`. -/
def resultArrayAux (mag : Nat → Rat) (len sample_rate : Nat) :
    Nat → Nat → List AudioFFTResult → List AudioFFTResult
  | 0, _, res => res
  | k + 1, j, res =>
    resultArrayAux mag len sample_rate k (j + 1)
      (InsertSorted res { bin := j, magnitude := mag j,
                          frequency := frequency j sample_rate len })

/-- Embeds `AudioFFTBase::resultArray<N>`.  The source initializes each slot
with `result[j].fft = -1000000;` — `AudioFFTResult` has no member `fft` (the
template would not even instantiate); per the comment
`// initialize to negative value` the sentinel is meant for `magnitude`, and
that evident intent is modelled here.  The other two members are left
uninitialized by the source; the model fills them with zeros. -/
def resultArray (mag : Nat → Rat) (len sample_rate N : Nat) :
    List AudioFFTResult :=
  let init := List.replicate N { bin := 0, magnitude := -1000000, frequency := 0 }
  resultArrayAux mag len sample_rate (len / 2 - 1) 1 init

/-- Embeds `AudioFFTBase::begin(AudioFFTConfig info)`:
stores `cfg = info` first, then rejects a non-power-of-two `len` with
`false`; otherwise starts the driver, resets `current_pos` to 0 and returns
`p_driver->isValid()`.  Returns (new state, return value, events). -/
def beginFFT (info : AudioFFTConfig) (s : FFTState) :
    FFTState × Bool × List Event :=
  let s1 := { s with cfg := info }
  if !isPowerOfTwo s1.len then
    (s1, false, [])
  else
    let s2 := { s1 with driver := s1.driver.beginDriver s1.len, current_pos := 0 }
    (s2, s2.driver.isValid, [Event.driverBegin s1.len])

/-- Embeds `AudioFFTBase::fft()`: run the driver transform, reset the
cursor, record the timestamp (`millis()` is the `now` parameter), then — if
a callback is registered — invoke it synchronously.  The callback event
records the `current_pos` and `timestamp` the callback observes. -/
def fftStep (now : Nat) (s : FFTState) : FFTState × List Event :=
  let s1 := { s with driver := { s.driver with fftCount := s.driver.fftCount + 1 },
                     current_pos := 0, timestamp := now }
  (s1, Event.fftRun ::
       (if s1.cfg.hasCallback then [Event.callback s1.current_pos s1.timestamp] else []))

/-- Embeds the loop of `AudioFFTBase::processSamples<T>`:
`for (int j=0; j<samples; j+=cfg.channels) { p_driver->setValue(current_pos, dataT[j+cfg.channel_used]); if (++current_pos>=len) fft(); }`.
`dataT` is the input buffer viewed as a sequence of `T` samples (the
pointer cast; byte decoding of the integer values is abstracted as a sample
accessor).  `c` and `cu` are `cfg.channels` and `cfg.channel_used`, passed
from the configuration at call time; they are loop constants, since in this
model the result callback only records an event (the spec, §5, forbids the
callback from mutating the configuration).  `fuel` bounds the iteration
count: it starts at `samples`, and since `j` advances by `c ≥ 1` per
iteration while `j < samples`, it never runs out (with `c = 0` the C++ loop
never terminates). -/
def processLoop (dataT : Nat → Int) (now samples c cu : Nat) :
    Nat → Nat → FFTState → FFTState × List Event
  | 0, _, s => (s, [])
  | fuel + 1, j, s =>
    if j < samples then
      let ev := Event.setValue s.current_pos (dataT (j + cu))
      let s1 := { s with current_pos := s.current_pos + 1 }
      let step := if s1.current_pos ≥ s1.len then fftStep now s1 else (s1, [])
      let rest := processLoop dataT now samples c cu fuel (j + c) step.1
      (rest.1, ev :: (step.2 ++ rest.2))
    else (s, [])

/-- Embeds `AudioFFTBase::processSamples<T>(data, byteCount)`:
`int samples = byteCount/sizeof(T);` then the sample loop.
`bytesPerSample` is `sizeof(T)` (2, 3 or 4). -/
def processSamples (dataT : Nat → Int) (bytesPerSample byteCount now : Nat)
    (s : FFTState) : FFTState × List Event :=
  let samples := byteCount / bytesPerSample
  processLoop dataT now samples s.cfg.channels s.cfg.channel_used samples 0 s

/-- Embeds `AudioFFTBase::write(data, len)`: `result = 0`; if the driver is
valid, `result = len` and the switch on `cfg.bits_per_sample` dispatches to
`processSamples` with `sizeof(int16_t) = 2`, `sizeof(int24_t) = 3`,
`sizeof(int32_t) = 4`; the `default` branch only logs — `result` remains
`len`.  Returns ((new state, events), bytes-consumed return value). -/
def write (dataT : Nat → Int) (byteCount now : Nat) (s : FFTState) :
    (FFTState × List Event) × Nat :=
  if s.driver.isValid then
    (match s.cfg.bits_per_sample with
     | 16 => (processSamples dataT 2 byteCount now s, byteCount)
     | 24 => (processSamples dataT 3 byteCount now s, byteCount)
     | 32 => (processSamples dataT 4 byteCount now s, byteCount)
     | _ => ((s, []), byteCount))
  else ((s, []), 0)

/-- Recognizes a `setValue` event (a sample written into the window). -/
def isSetValue : Event → Bool
  | .setValue _ _ => true
  | _ => false

/-- Recognizes an `fftRun` event (one `p_driver->fft()` invocation). -/
def isFftRun : Event → Bool
  | .fftRun => true
  | _ => false

/-- Recognizes a `callback` event (one user-callback invocation). -/
def isCallbackEv : Event → Bool
  | .callback _ _ => true
  | _ => false

/-- Number of samples written into the window during a call. -/
def countSetValue (evs : List Event) : Nat :=
  (evs.filter isSetValue).length

/-- Number of driver transforms triggered during a call. -/
def countFftRun (evs : List Event) : Nat :=
  (evs.filter isFftRun).length

/-- Number of user-callback invocations during a call. -/
def countCallback (evs : List Event) : Nat :=
  (evs.filter isCallbackEv).length

/-- State used for the C2 counterexample: a valid engine configured with the
unsupported bit depth 8. -/
def c2State : FFTState :=
  { len := 8, cfg := { bits_per_sample := 8 }, driver := { started := true } }

/-- State for the C3 counterexample: stereo 16-bit input, window length 8,
valid driver, channel 0 used. -/
def c3State : FFTState :=
  { len := 8, cfg := { channels := 2, bits_per_sample := 16 },
    driver := { started := true } }

/-- State used for the C9 and C5 witnesses: window length 4, mono 16-bit
input with a registered callback, driver started. -/
def s5 : FFTState :=
  { len := 4,
    cfg := { channels := 1, bits_per_sample := 16, hasCallback := true },
    driver := { started := true } }

/-- Fresh pipeline with the non-power-of-two window length 1000 used by the
C6 witness. -/
def c6State : FFTState := { len := 1000 }

/-- Pipeline state before the C7 counterexample call: window length 1000,
stored configuration with sample_rate 44100. -/
def c7Before : FFTState := { len := 1000, cfg := { sample_rate := 44100 } }

/-- Spectrum with a single positive peak at bin 2 (used by the C4 and C8
witnesses). -/
def magPeak2 : Nat → Rat := fun j => if j = 2 then 5 else 0

/-- Spectrum with magnitudes strictly decreasing by bin index on the
scanned bins 1..3 of a length-8 window (the C1 failing input). -/
def magDecreasing : Nat → Rat := fun j =>
  if j = 1 then 9 else if j = 2 then 8 else if j = 3 then 7 else 0

/-! ## Helper lemmas shared by several claims -/

theorem beginFFT_of_not_pow2 (info : AudioFFTConfig) (s : FFTState)
    (h : isPowerOfTwo s.len = false) :
    beginFFT info s = ({ s with cfg := info }, false, []) := by
  simp [beginFFT, h]

theorem write_of_invalid (dataT : Nat → Int) (n now : Nat) (s : FFTState)
    (h : s.driver.isValid = false) :
    write dataT n now s = ((s, []), 0) := by
  simp [write, h]

theorem write_returns_n_of_valid (dataT : Nat → Int) (n now : Nat) (s : FFTState)
    (h : s.driver.isValid = true) :
    (write dataT n now s).2 = n := by
  unfold write
  rw [h]
  simp only [ite_true]
  split <;> rfl

theorem write_of_unsupported (dataT : Nat → Int) (n now : Nat) (s : FFTState)
    (hv : s.driver.isValid = true) (h16 : s.cfg.bits_per_sample ≠ 16)
    (h24 : s.cfg.bits_per_sample ≠ 24) (h32 : s.cfg.bits_per_sample ≠ 32) :
    write dataT n now s = ((s, []), n) := by
  unfold write
  rw [hv]
  simp only [ite_true]

theorem fftStep_state (now : Nat) (s : FFTState) :
    (fftStep now s).1.len = s.len ∧ (fftStep now s).1.cfg = s.cfg ∧
    (fftStep now s).1.current_pos = 0 ∧ (fftStep now s).1.timestamp = now ∧
    (fftStep now s).1.driver.fftCount = s.driver.fftCount + 1 :=
  ⟨rfl, rfl, rfl, rfl, rfl⟩

theorem processLoop_state (dataT : Nat → Int) (now samples c cu : Nat) :
    ∀ fuel j s,
      (processLoop dataT now samples c cu fuel j s).1.len = s.len ∧
      (s.current_pos < s.len →
        (processLoop dataT now samples c cu fuel j s).1.current_pos < s.len) := by
  intro fuel
  induction fuel with
  | zero => intro j s; exact ⟨rfl, fun h => h⟩
  | succ fuel ih =>
    intro j s
    by_cases hj : j < samples
    · simp only [processLoop, if_pos hj]
      by_cases hp : s.current_pos + 1 ≥ s.len
      · simp only [ge_iff_le, hp, ite_true]
        have h := ih (j + c) (fftStep now { s with current_pos := s.current_pos + 1 }).1
        refine ⟨h.1, fun hlt => ?_⟩
        exact h.2 (Nat.zero_lt_of_lt hlt)
      · simp only [ge_iff_le, hp, ite_false]
        have h := ih (j + c) { s with current_pos := s.current_pos + 1 }
        exact ⟨h.1, fun _ => h.2 (Nat.lt_of_not_le hp)⟩
    · simp only [processLoop, if_neg hj]
      refine ⟨?_, ?_⟩ <;> first | trivial | (intro h; exact h)

theorem write_state (dataT : Nat → Int) (n now : Nat) (s : FFTState)
    (h : s.current_pos < s.len) :
    (write dataT n now s).1.1.current_pos < s.len ∧
    (write dataT n now s).1.1.len = s.len := by
  unfold write
  by_cases hv : s.driver.isValid
  · rw [hv]
    simp only [ite_true]
    split
    · have hs := processLoop_state dataT now (n / 2) s.cfg.channels
        s.cfg.channel_used (n / 2) 0 s
      exact ⟨by simpa [processSamples] using hs.2 h, by simpa [processSamples] using hs.1⟩
    · have hs := processLoop_state dataT now (n / 3) s.cfg.channels
        s.cfg.channel_used (n / 3) 0 s
      exact ⟨by simpa [processSamples] using hs.2 h, by simpa [processSamples] using hs.1⟩
    · have hs := processLoop_state dataT now (n / 4) s.cfg.channels
        s.cfg.channel_used (n / 4) 0 s
      exact ⟨by simpa [processSamples] using hs.2 h, by simpa [processSamples] using hs.1⟩
    · exact ⟨h, by trivial⟩
  · rw [Bool.of_not_eq_true hv]
    simp only [Bool.false_eq_true, ite_false]
    exact ⟨h, by trivial⟩

theorem countSetValue_append (a b : List Event) :
    countSetValue (a ++ b) = countSetValue a + countSetValue b := by
  simp [countSetValue, List.filter_append]

theorem countSetValue_fftStep (now : Nat) (s : FFTState) :
    countSetValue (fftStep now s).2 = 0 := by
  unfold fftStep
  by_cases h : s.cfg.hasCallback <;> simp [h, countSetValue, isSetValue]

theorem countSetValue_cons_setValue (p : Nat) (v : Int) (evs : List Event) :
    countSetValue (Event.setValue p v :: evs) = countSetValue evs + 1 := by
  simp [countSetValue, List.filter, isSetValue]

theorem countSetValue_stepPair (P : Prop) [Decidable P] (now : Nat)
    (s1 : FFTState) :
    countSetValue (if P then fftStep now s1 else (s1, [])).2 = 0 := by
  split
  · exact countSetValue_fftStep now s1
  · rfl

theorem ceil_div_step (r c : Nat) (hr : 1 ≤ r) (hc : 1 ≤ c) :
    (r + c - 1) / c = ((r - c) + c - 1) / c + 1 := by
  have h1 : r + c - 1 = (r - 1) + c := by omega
  rw [h1, Nat.add_div_right _ hc]
  rcases Nat.le_total c r with h | h
  · have h2 : (r - c) + c - 1 = r - 1 := by omega
    rw [h2]
  · have h2 : r - c = 0 := by omega
    rw [h2, Nat.div_eq_of_lt (by omega), Nat.div_eq_of_lt (by omega)]

theorem processLoop_countSetValue (dataT : Nat → Int) (now samples c cu : Nat)
    (hc : 1 ≤ c) :
    ∀ fuel j s, samples - j ≤ fuel →
      countSetValue (processLoop dataT now samples c cu fuel j s).2 =
        ((samples - j) + c - 1) / c := by
  intro fuel
  induction fuel with
  | zero =>
    intro j s hf
    have h0 : samples - j = 0 := Nat.le_zero.mp hf
    have hd : (c - 1) / c = 0 := Nat.div_eq_of_lt (by omega)
    rw [h0]
    simp [processLoop, countSetValue, hd]
  | succ fuel ih =>
    intro j s hf
    by_cases hj : j < samples
    · have hr : 1 ≤ samples - j := by omega
      simp only [processLoop, if_pos hj]
      rw [countSetValue_cons_setValue, countSetValue_append,
        countSetValue_stepPair, ih (j + c) _ (by omega),
        ceil_div_step (samples - j) c hr hc]
      have hsub : samples - (j + c) = samples - j - c := by omega
      rw [hsub]
      omega
    · have h0 : samples - j = 0 := by omega
      have hd : (c - 1) / c = 0 := Nat.div_eq_of_lt (by omega)
      rw [h0]
      simp [processLoop, if_neg hj, countSetValue, hd]

theorem processLoop_done (dataT : Nat → Int) (now samples c cu fuel j : Nat)
    (s : FFTState) (h : ¬j < samples) :
    processLoop dataT now samples c cu fuel j s = (s, []) := by
  cases fuel <;> simp [processLoop, h]

theorem isSetValue_not_others (e : Event) (h : isSetValue e = true) :
    isFftRun e = false ∧ isCallbackEv e = false := by
  cases e <;> simp_all [isSetValue, isFftRun, isCallbackEv]

theorem counts_over_setValue_prefix (pre tail : List Event)
    (h : ∀ e ∈ pre, isSetValue e = true) :
    countFftRun (pre ++ tail) = countFftRun tail ∧
    countCallback (pre ++ tail) = countCallback tail := by
  induction pre with
  | nil => simp
  | cons e pre ih =>
    have he := isSetValue_not_others e (h e (by simp))
    have h' := ih (fun x hx => h x (by simp [hx]))
    simp [countFftRun, countCallback, List.filter, he.1, he.2] at h' ⊢
    exact h'

theorem fftStep_events_cb (now : Nat) (s : FFTState)
    (h : s.cfg.hasCallback = true) :
    (fftStep now s).2 = [Event.fftRun, Event.callback 0 now] := by
  simp [fftStep, h]

theorem processLoop_fills_window (dataT : Nat → Int) (now samples c cu : Nat) :
    ∀ r fuel j s, 1 ≤ c → 1 ≤ r → s.cfg.hasCallback = true →
      s.current_pos + r = s.len → samples - j = r * c → j ≤ samples →
      r ≤ fuel →
      ∃ pre, (∀ e ∈ pre, isSetValue e = true) ∧
        (processLoop dataT now samples c cu fuel j s).2 =
          pre ++ [Event.fftRun, Event.callback 0 now] ∧
        (processLoop dataT now samples c cu fuel j s).1.current_pos = 0 ∧
        (processLoop dataT now samples c cu fuel j s).1.timestamp = now ∧
        (processLoop dataT now samples c cu fuel j s).1.driver.fftCount =
          s.driver.fftCount + 1 := by
  intro r
  induction r with
  | zero =>
    intro fuel j s _ h1
    omega
  | succ r ih =>
    intro fuel j s hc hr1 hcb hpos hsj hjs hfuel
    have hmul : (r + 1) * c = r * c + c := by ring
    rw [hmul] at hsj
    obtain ⟨m, hm⟩ : ∃ m, m = r * c := ⟨r * c, rfl⟩
    rw [← hm] at hsj
    cases fuel with
    | zero => omega
    | succ f =>
      have hj : j < samples := by omega
      rcases Nat.eq_zero_or_pos r with hr0 | hrpos
      · have hm0 : m = 0 := by rw [hm, hr0]; ring
        have hsamples : samples = j + c := by omega
        have hlen : s.current_pos + 1 = s.len := by omega
        have hge : s.current_pos + 1 ≥ s.len := by omega
        simp only [processLoop, if_pos hj, ge_iff_le, hge, ite_true]
        rw [processLoop_done dataT now samples c cu f (j + c) _ (by omega)]
        rw [fftStep_events_cb now { s with current_pos := s.current_pos + 1 } hcb]
        exact ⟨[Event.setValue s.current_pos (dataT (j + cu))],
          by intro e he; simp at he; rw [he]; rfl,
          by simp, rfl, rfl, rfl⟩
      · have hlt : ¬(s.current_pos + 1 ≥ s.len) := by omega
        simp only [processLoop, if_pos hj, ge_iff_le, hlt, ite_false]
        have hsj' : samples - (j + c) = r * c := by rw [← hm]; omega
        obtain ⟨pre, hall, hev, h0, hts, hcnt⟩ :=
          ih f (j + c) { s with current_pos := s.current_pos + 1 } hc hrpos hcb
            (by simp; omega) hsj' (by omega) (by omega)
        refine ⟨Event.setValue s.current_pos (dataT (j + cu)) :: pre, ?_, ?_, ?_, ?_, ?_⟩
        · intro e he
          rcases List.mem_cons.mp he with he | he
          · rw [he]; rfl
          · exact hall e he
        · simp [hev]
        · exact h0
        · exact hts
        · exact hcnt

theorem processSamples_fills (dataT : Nat → Int) (now b byteCount : Nat)
    (s : FFTState) (hb : 1 ≤ b) (hc : 1 ≤ s.cfg.channels)
    (hcb : s.cfg.hasCallback = true) (hpos : s.current_pos = 0)
    (hlen : 1 ≤ s.len) (hbc : byteCount = s.len * s.cfg.channels * b) :
    ∃ pre, (∀ e ∈ pre, isSetValue e = true) ∧
      (processSamples dataT b byteCount now s).2 =
        pre ++ [Event.fftRun, Event.callback 0 now] ∧
      (processSamples dataT b byteCount now s).1.current_pos = 0 ∧
      (processSamples dataT b byteCount now s).1.timestamp = now ∧
      (processSamples dataT b byteCount now s).1.driver.fftCount =
        s.driver.fftCount + 1 := by
  have hsamples : byteCount / b = s.len * s.cfg.channels := by
    rw [hbc]; exact Nat.mul_div_cancel _ (by omega)
  simp only [processSamples, hsamples]
  exact processLoop_fills_window dataT now (s.len * s.cfg.channels)
    s.cfg.channels s.cfg.channel_used s.len (s.len * s.cfg.channels) 0 s hc
    hlen hcb (by omega) (by simp) (by omega)
    (Nat.le_mul_of_pos_right s.len hc)

theorem resultAux_spec (mag : Nat → Rat) :
    ∀ k j bin m,
      m ≤ (resultAux mag k j bin m).2 ∧
      (∀ i, j ≤ i → i < j + k → mag i ≤ (resultAux mag k j bin m).2) ∧
      (((resultAux mag k j bin m).1 = bin ∧ (resultAux mag k j bin m).2 = m) ∨
        (j ≤ (resultAux mag k j bin m).1 ∧ (resultAux mag k j bin m).1 < j + k ∧
         mag (resultAux mag k j bin m).1 = (resultAux mag k j bin m).2 ∧
         m < (resultAux mag k j bin m).2 ∧
         ∀ i, j ≤ i → i < (resultAux mag k j bin m).1 →
           mag i < (resultAux mag k j bin m).2)) := by
  intro k
  induction k with
  | zero =>
    intro j bin m
    refine ⟨le_refl m, fun i hij hi => absurd hi (by omega), Or.inl ⟨rfl, rfl⟩⟩
  | succ k ih =>
    intro j bin m
    by_cases hgt : mag j > m
    · simp only [resultAux, if_pos hgt]
      obtain ⟨ha, hb, hcases⟩ := ih (j + 1) j (mag j)
      refine ⟨le_of_lt (lt_of_lt_of_le hgt ha), ?_, ?_⟩
      · intro i hij hi
        rcases Nat.eq_or_lt_of_le hij with heq | hlt
        · rw [← heq]; exact ha
        · exact hb i (by omega) (by omega)
      · rcases hcases with ⟨h1, h2⟩ | ⟨h1, h2, h3, h4, h5⟩
        · right
          refine ⟨by omega, by omega, ?_, ?_, ?_⟩
          · rw [h1, h2]
          · rw [h2]; exact hgt
          · intro i hij hi
            rw [h1] at hi
            exact absurd hij (by omega)
        · right
          refine ⟨by omega, by omega, h3, lt_trans hgt h4, ?_⟩
          intro i hij hi
          rcases Nat.eq_or_lt_of_le hij with heq | hlt
          · rw [← heq]; exact h4
          · exact h5 i (by omega) hi
    · simp only [resultAux, if_neg hgt]
      push_neg at hgt
      obtain ⟨ha, hb, hcases⟩ := ih (j + 1) bin m
      refine ⟨ha, ?_, ?_⟩
      · intro i hij hi
        rcases Nat.eq_or_lt_of_le hij with heq | hlt
        · rw [← heq]; exact le_trans hgt ha
        · exact hb i (by omega) (by omega)
      · rcases hcases with ⟨h1, h2⟩ | ⟨h1, h2, h3, h4, h5⟩
        · exact Or.inl ⟨h1, h2⟩
        · right
          refine ⟨by omega, by omega, h3, h4, ?_⟩
          intro i hij hi
          rcases Nat.eq_or_lt_of_le hij with heq | hlt
          · rw [← heq]; exact lt_of_le_of_lt hgt h4
          · exact h5 i (by omega) hi

theorem mem_insertAt (l : List AudioFFTResult) (j : Nat)
    (tmp r : AudioFFTResult) (h : r ∈ insertAt l j tmp) : r = tmp ∨ r ∈ l := by
  unfold insertAt at h
  rcases List.mem_append.mp h with h | h
  · exact Or.inr (List.take_subset j l h)
  · rcases List.mem_cons.mp h with h | h
    · exact Or.inl h
    · exact Or.inr (List.drop_subset j l (List.dropLast_subset _ h))

theorem mem_InsertSortedAux (tmp r : AudioFFTResult) :
    ∀ k j l, r ∈ InsertSortedAux tmp k j l → r = tmp ∨ r ∈ l := by
  intro k
  induction k with
  | zero => intro j l h; exact Or.inr h
  | succ k ih =>
    intro j l h
    simp only [InsertSortedAux] at h
    rcases ih (j + 1) _ h with h' | h'
    · exact Or.inl h'
    · by_cases hc : tmp.magnitude > (l.getD j default).magnitude
      · rw [if_pos hc] at h'
        exact mem_insertAt l j tmp r h'
      · rw [if_neg hc] at h'
        exact Or.inr h'

theorem mem_InsertSorted (l : List AudioFFTResult) (tmp r : AudioFFTResult)
    (h : r ∈ InsertSorted l tmp) : r = tmp ∨ r ∈ l :=
  mem_InsertSortedAux tmp r l.length 0 l h

theorem mem_resultArrayAux (mag : Nat → Rat) (len sample_rate : Nat)
    (r : AudioFFTResult) :
    ∀ k j res, r ∈ resultArrayAux mag len sample_rate k j res →
      (∃ i, r = { bin := i, magnitude := mag i,
                  frequency := frequency i sample_rate len }) ∨ r ∈ res := by
  intro k
  induction k with
  | zero => intro j res h; exact Or.inr h
  | succ k ih =>
    intro j res h
    simp only [resultArrayAux] at h
    rcases ih (j + 1) _ h with h' | h'
    · exact Or.inl h'
    · rcases mem_InsertSorted _ _ _ h' with h'' | h''
      · exact Or.inl ⟨j, h''⟩
      · exact Or.inr h''

/-! ## Claim theorems -/

/-- C2: counterexample.  With a valid engine and unsupported
`bits_per_sample = 8`, `write` of 4 bytes processes nothing but returns the
full 4, not 0 as the claim states. -/
theorem C2_cex_unsupported_returns_full :
    c2State.driver.isValid = true ∧ c2State.cfg.bits_per_sample = 8 ∧
    (write (fun _ => 0) 4 0 c2State).2 = 4 ∧
    ¬(write (fun _ => 0) 4 0 c2State).2 = 0 := by
  have h4 : (write (fun _ => 0) 4 0 c2State).2 = 4 := rfl
  exact ⟨rfl, rfl, h4, by rw [h4]; decide⟩

/-- C2 (amended): if the engine is invalid, `write` ingests nothing and
returns 0; if the engine is valid it returns the full `byte_count` — also
when `bits_per_sample` is unsupported, in which case it still ingests
nothing (state unchanged, no samples written) but reports all bytes
consumed. -/
theorem C2_write_contract (dataT : Nat → Int) (n now : Nat) (s : FFTState) :
    (s.driver.isValid = false → write dataT n now s = ((s, []), 0)) ∧
    (s.driver.isValid = true → (write dataT n now s).2 = n) ∧
    (s.driver.isValid = true → s.cfg.bits_per_sample ≠ 16 →
      s.cfg.bits_per_sample ≠ 24 → s.cfg.bits_per_sample ≠ 32 →
      write dataT n now s = ((s, []), n)) :=
  ⟨fun h => write_of_invalid dataT n now s h,
   fun h => write_returns_n_of_valid dataT n now s h,
   fun hv h16 h24 h32 => write_of_unsupported dataT n now s hv h16 h24 h32⟩

/-- C2 witness: concrete instances of the amended contract. -/
theorem C2_write_contract_witness :
    (write (fun _ => 0) 4 0 { len := 8 }).2 = 0 ∧
    (write (fun _ => 0) 4 0 c2State).2 = 4 := by
  constructor
  · have h := (C2_write_contract (fun _ => 0) 4 0 { len := 8 }).1 rfl
    rw [h]
  · exact (C2_write_contract (fun _ => 0) 4 0 c2State).2.1 rfl

/-- C3: counterexample.  6 bytes of stereo 16-bit input hold one complete
frame (4 bytes) plus a trailing partial frame (a single 2-byte sample).
The claim says only the one complete frame contributes a sample, but the
code writes TWO samples into the window: the loop runs for every stride
index `j < samples` (`samples = 3`), so the partial frame's sample
`dataT[2]` (value 102 here) is ingested as well. -/
theorem C3_cex_partial_frame_ingested :
    (write (fun j => 100 + (j : Int)) 6 99 c3State).1.2 =
      [Event.setValue 0 100, Event.setValue 1 102] ∧
    6 / (2 * (16 / 8)) = 1 := by
  constructor
  · rfl
  · rfl

/-- C3 (amended): decoding truncates to complete samples
(`samples = byteCount / bytesPerSample`, so trailing bytes smaller than one
sample are dropped), but the per-frame loop then runs for every stride
start `j < samples` in steps of `channels`: exactly
`⌈samples / channels⌉ = (samples + channels - 1) / channels` samples are
written into the window, so a trailing partial frame whose first sample was
decoded DOES contribute a sample (reading index `j + channel_used`, which
may lie beyond the decoded data); nothing is retained for the next call. -/
theorem C3_sample_count (dataT : Nat → Int) (byteCount now : Nat) (s : FFTState)
    (hc : 1 ≤ s.cfg.channels) (hv : s.driver.isValid = true)
    (hb : s.cfg.bits_per_sample = 16 ∨ s.cfg.bits_per_sample = 24 ∨
          s.cfg.bits_per_sample = 32) :
    countSetValue (write dataT byteCount now s).1.2 =
      ((byteCount / (s.cfg.bits_per_sample / 8)) + s.cfg.channels - 1) /
        s.cfg.channels := by
  unfold write
  rw [hv]
  simp only [ite_true]
  split
  all_goals rename_i hbits
  · rw [hbits]
    simpa [processSamples] using
      processLoop_countSetValue dataT now (byteCount / 2) s.cfg.channels
        s.cfg.channel_used hc (byteCount / 2) 0 s (Nat.le_refl _)
  · rw [hbits]
    simpa [processSamples] using
      processLoop_countSetValue dataT now (byteCount / 3) s.cfg.channels
        s.cfg.channel_used hc (byteCount / 3) 0 s (Nat.le_refl _)
  · rw [hbits]
    simpa [processSamples] using
      processLoop_countSetValue dataT now (byteCount / 4) s.cfg.channels
        s.cfg.channel_used hc (byteCount / 4) 0 s (Nat.le_refl _)
  · rcases hb with hb | hb | hb <;> simp_all

/-- C3 witness: the amended count formula at the counterexample input —
`samples = 3`, `channels = 2`, so 2 samples are written. -/
theorem C3_sample_count_witness :
    countSetValue (write (fun j => 100 + (j : Int)) 6 99 c3State).1.2 = 2 := by
  have h := C3_sample_count (fun j => 100 + (j : Int)) 6 99 c3State
    (by decide) rfl (Or.inl rfl)
  simpa using h

/-- C1: the top-N extraction evaluated at the failing input.  With
`len = 8` (bins 1..3 scanned) and strictly decreasing magnitudes
(9, 8, 7), single-insertion-point semantics requires bins `[1, 2, 3]`;
the code's `InsertSorted` loop has no break, so it re-inserts the
candidate at every qualifying slot and bin 1 floods all three slots —
a duplicate bin in the returned array. -/
theorem C1_multi_insert_duplicates :
    (resultArray magDecreasing 8 8000 3).map (fun r => r.bin) = [1, 1, 1] ∧
    (resultArray magDecreasing 8 8000 3).map (fun r => r.magnitude) =
      [9, 9, 9] := by
  exact ⟨by decide, by decide⟩

/-- C4: counterexample.  On an all-zero spectrum with `len = 8`
(`len/2 = 4 > 1`), the code seeds the scan with a zero-magnitude bin-0
result and only replaces it on a strict improvement, so it returns bin 0 —
outside the scanned range `1..3`; the claim's seed-with-bin-1,
ties-keep-earliest semantics (`dominantSpec`) returns bin 1. -/
theorem C4_cex_all_zero_returns_bin0 :
    (result (fun _ => 0) 8 8000).bin = 0 ∧
    (dominantSpec (fun _ => 0) 8 8000).bin = 1 ∧
    ¬(result (fun _ => 0) 8 8000).bin = (dominantSpec (fun _ => 0) 8 8000).bin := by
  refine ⟨by decide, by decide, by decide⟩

/-- C4 (amended): `result()` scans bins `1..len/2-1` but seeds the maximum
with a zero-magnitude bin-0 result (not with bin 1): the returned magnitude
is an upper bound of all scanned magnitudes and is non-negative; either no
scanned bin strictly exceeds 0 and the bin-0, zero-magnitude seed is
returned (also when `len/2 ≤ 1`), or the returned bin is the earliest
scanned bin of strictly greatest magnitude, with the returned magnitude
positive and equal to that bin's.  The frequency is the returned bin's; on
a spectrum with a single positive peak at bin `k` in `[1, len/2)` the
returned bin is `k`. -/
theorem C4_dominant (mag : Nat → Rat) (len sample_rate : Nat) :
    (result mag len sample_rate).frequency =
      frequency (result mag len sample_rate).bin sample_rate len ∧
    0 ≤ (result mag len sample_rate).magnitude ∧
    (∀ j, 1 ≤ j → j < len / 2 →
      mag j ≤ (result mag len sample_rate).magnitude) ∧
    (((result mag len sample_rate).bin = 0 ∧
      (result mag len sample_rate).magnitude = 0) ∨
      (1 ≤ (result mag len sample_rate).bin ∧
       (result mag len sample_rate).bin < len / 2 ∧
       mag (result mag len sample_rate).bin =
         (result mag len sample_rate).magnitude ∧
       0 < (result mag len sample_rate).magnitude ∧
       ∀ i, 1 ≤ i → i < (result mag len sample_rate).bin →
         mag i < (result mag len sample_rate).magnitude)) ∧
    (∀ k, 1 ≤ k → k < len / 2 → 0 < mag k →
      (∀ i, 1 ≤ i → i < len / 2 → i ≠ k → mag i < mag k) →
      (result mag len sample_rate).bin = k ∧
      (result mag len sample_rate).magnitude = mag k) := by
  obtain ⟨ha, hb, hcases⟩ := resultAux_spec mag (len / 2 - 1) 1 0 0
  simp only [result]
  have hrange : ∀ j : Nat, 1 ≤ j → j < len / 2 → j < 1 + (len / 2 - 1) := by
    omega
  have hbound : ∀ j, 1 ≤ j → j < len / 2 →
      mag j ≤ (resultAux mag (len / 2 - 1) 1 0 0).2 :=
    fun j h1 h2 => hb j h1 (hrange j h1 h2)
  have hmain :
      ((resultAux mag (len / 2 - 1) 1 0 0).1 = 0 ∧
       (resultAux mag (len / 2 - 1) 1 0 0).2 = 0) ∨
      (1 ≤ (resultAux mag (len / 2 - 1) 1 0 0).1 ∧
       (resultAux mag (len / 2 - 1) 1 0 0).1 < len / 2 ∧
       mag (resultAux mag (len / 2 - 1) 1 0 0).1 =
         (resultAux mag (len / 2 - 1) 1 0 0).2 ∧
       0 < (resultAux mag (len / 2 - 1) 1 0 0).2 ∧
       ∀ i, 1 ≤ i → i < (resultAux mag (len / 2 - 1) 1 0 0).1 →
         mag i < (resultAux mag (len / 2 - 1) 1 0 0).2) := by
    rcases hcases with ⟨h1, h2⟩ | ⟨h1, h2, h3, h4, h5⟩
    · exact Or.inl ⟨h1, h2⟩
    · exact Or.inr ⟨h1, by omega, h3, h4, h5⟩
  refine ⟨by trivial, ha, hbound, hmain, ?_⟩
  intro k hk1 hk2 hkpos hother
  have hmagk := hbound k hk1 hk2
  have hpos : 0 < (resultAux mag (len / 2 - 1) 1 0 0).2 :=
    lt_of_lt_of_le hkpos hmagk
  rcases hmain with ⟨h1, h2⟩ | ⟨h1, h2, h3, h4, h5⟩
  · rw [h2] at hpos
    exact absurd hpos (lt_irrefl 0)
  · by_cases hbk : (resultAux mag (len / 2 - 1) 1 0 0).1 = k
    · refine ⟨hbk, ?_⟩
      rw [← hbk] at hmagk ⊢
      exact h3.symm
    · exfalso
      have hlt := hother (resultAux mag (len / 2 - 1) 1 0 0).1 h1 h2 hbk
      rw [h3] at hlt
      exact absurd hmagk (not_le.mpr hlt)

/-- C4 witness: the peak clause of the amended statement at `len = 8`,
peak at bin 2 — the returned bin is 2 with magnitude 5. -/
theorem C4_dominant_witness :
    (result magPeak2 8 8000).bin = 2 ∧ (result magPeak2 8 8000).magnitude = 5 := by
  have h := (C4_dominant magPeak2 8 8000).2.2.2.2 2 (by decide) (by decide)
    (by decide) (by intro i h1 h2 h3; simp [magPeak2, h3])
  exact ⟨h.1, by rw [h.2]; decide⟩

/-- C5: for every supported bit depth (16/24/32), valid engine, registered
callback and cursor at 0 (the state after a successful `begin`), ingesting
exactly `window_length` frames (`byteCount = len * channels * bytesPerSample`)
returns the full byte count and triggers exactly one transform and exactly
one callback; the trace is sample writes followed by `fftRun` and then the
callback event, which observes `current_pos = 0` and the fresh timestamp —
i.e. the transform runs, the cursor is reset, the timestamp is recorded,
and only then is the callback invoked synchronously. -/
theorem C5_window_full (dataT : Nat → Int) (now byteCount : Nat) (s : FFTState)
    (hb : s.cfg.bits_per_sample = 16 ∨ s.cfg.bits_per_sample = 24 ∨
          s.cfg.bits_per_sample = 32)
    (hc : 1 ≤ s.cfg.channels) (hv : s.driver.isValid = true)
    (hcb : s.cfg.hasCallback = true) (hpos : s.current_pos = 0)
    (hlen : 1 ≤ s.len)
    (hbc : byteCount = s.len * s.cfg.channels * (s.cfg.bits_per_sample / 8)) :
    (write dataT byteCount now s).2 = byteCount ∧
    countFftRun (write dataT byteCount now s).1.2 = 1 ∧
    countCallback (write dataT byteCount now s).1.2 = 1 ∧
    (∃ pre, (∀ e ∈ pre, isSetValue e = true) ∧
      (write dataT byteCount now s).1.2 =
        pre ++ [Event.fftRun, Event.callback 0 now]) ∧
    (write dataT byteCount now s).1.1.current_pos = 0 ∧
    (write dataT byteCount now s).1.1.timestamp = now ∧
    (write dataT byteCount now s).1.1.driver.fftCount =
      s.driver.fftCount + 1 := by
  refine ⟨write_returns_n_of_valid dataT byteCount now s hv, ?_⟩
  unfold write
  rw [hv]
  simp only [ite_true]
  split
  all_goals rename_i hbits
  · have hbc2 : byteCount = s.len * s.cfg.channels * 2 := by rw [hbc, hbits]
    obtain ⟨pre, hall, hev, h0, hts, hcnt⟩ :=
      processSamples_fills dataT now 2 byteCount s (by omega) hc hcb hpos hlen hbc2
    have hcounts := counts_over_setValue_prefix pre
      [Event.fftRun, Event.callback 0 now] hall
    dsimp only
    rw [hev]
    exact ⟨by rw [hcounts.1]; rfl, by rw [hcounts.2]; rfl,
      ⟨pre, hall, rfl⟩, h0, hts, hcnt⟩
  · have hbc2 : byteCount = s.len * s.cfg.channels * 3 := by rw [hbc, hbits]
    obtain ⟨pre, hall, hev, h0, hts, hcnt⟩ :=
      processSamples_fills dataT now 3 byteCount s (by omega) hc hcb hpos hlen hbc2
    have hcounts := counts_over_setValue_prefix pre
      [Event.fftRun, Event.callback 0 now] hall
    dsimp only
    rw [hev]
    exact ⟨by rw [hcounts.1]; rfl, by rw [hcounts.2]; rfl,
      ⟨pre, hall, rfl⟩, h0, hts, hcnt⟩
  · have hbc2 : byteCount = s.len * s.cfg.channels * 4 := by rw [hbc, hbits]
    obtain ⟨pre, hall, hev, h0, hts, hcnt⟩ :=
      processSamples_fills dataT now 4 byteCount s (by omega) hc hcb hpos hlen hbc2
    have hcounts := counts_over_setValue_prefix pre
      [Event.fftRun, Event.callback 0 now] hall
    dsimp only
    rw [hev]
    exact ⟨by rw [hcounts.1]; rfl, by rw [hcounts.2]; rfl,
      ⟨pre, hall, rfl⟩, h0, hts, hcnt⟩
  · rcases hb with hb | hb | hb <;> simp_all

/-- C5 witness: `s5` (window length 4, mono 16-bit, callback registered,
driver started) fed 8 bytes at time 42 — one transform, one callback,
timestamp updated. -/
theorem C5_window_full_witness :
    countFftRun (write (fun j => (j : Int)) 8 42 s5).1.2 = 1 ∧
    countCallback (write (fun j => (j : Int)) 8 42 s5).1.2 = 1 ∧
    (write (fun j => (j : Int)) 8 42 s5).1.1.timestamp = 42 := by
  have hb16 : s5.cfg.bits_per_sample = 16 := by decide
  have hch : 1 ≤ s5.cfg.channels := by decide
  have hvv : s5.driver.isValid = true := by decide
  have hcbb : s5.cfg.hasCallback = true := by decide
  have hps : s5.current_pos = 0 := by decide
  have hln : 1 ≤ s5.len := by decide
  have hbcc : 8 = s5.len * s5.cfg.channels * (s5.cfg.bits_per_sample / 8) := by
    decide
  have h := C5_window_full (fun j => (j : Int)) 42 8 s5 (Or.inl hb16)
    hch hvv hcbb hps hln hbcc
  exact ⟨h.2.1, h.2.2.1, h.2.2.2.2.2.1⟩

/-- C6: a non-power-of-two window length makes `begin` return false without
starting the driver (no driver event), and every subsequent `write` on the
resulting state consumes 0 bytes and does nothing. -/
theorem C6_bad_len_rejected (info : AudioFFTConfig) (s : FFTState)
    (hlen : isPowerOfTwo s.len = false) (hdrv : s.driver.started = false) :
    (beginFFT info s).2.1 = false ∧
    (beginFFT info s).1.driver.started = false ∧
    (beginFFT info s).2.2 = [] ∧
    ∀ dataT n now, write dataT n now (beginFFT info s).1 =
      (((beginFFT info s).1, []), 0) := by
  have h := beginFFT_of_not_pow2 info s hlen
  rw [h]
  refine ⟨rfl, hdrv, rfl, ?_⟩
  intro dataT n now
  exact write_of_invalid dataT n now _ (by simpa [DriverState.isValid] using hdrv)

/-- C6 witness: window length 1000 — `begin` fails and a following 4-byte
`write` consumes 0 bytes. -/
theorem C6_bad_len_rejected_witness :
    (beginFFT {} c6State).2.1 = false ∧
    (write (fun _ => 0) 4 0 (beginFFT {} c6State).1).2 = 0 := by
  have h := C6_bad_len_rejected {} c6State (by decide) rfl
  refine ⟨h.1, ?_⟩
  rw [h.2.2.2 (fun _ => 0) 4 0]

/-- C7: counterexample.  A failed `begin` (window length 1000, not a power
of two) still overwrites the stored configuration record: the stored
sample_rate changes from 44100 to 22050 although the call returns false. -/
theorem C7_cex_cfg_mutated :
    (beginFFT { sample_rate := 22050 } c7Before).2.1 = false ∧
    c7Before.cfg.sample_rate = 44100 ∧
    (beginFFT { sample_rate := 22050 } c7Before).1.cfg.sample_rate = 22050 := by
  decide

/-- C7 (amended): a failed `begin` starts no driver, emits no event and
leaves cursor/timestamp/driver untouched, but it does overwrite the stored
configuration record with the new configuration before validating. -/
theorem C7_failed_begin_only_cfg (info : AudioFFTConfig) (s : FFTState)
    (h : isPowerOfTwo s.len = false) :
    beginFFT info s = ({ s with cfg := info }, false, []) :=
  beginFFT_of_not_pow2 info s h

/-- C7 witness: the amended statement at the concrete counterexample
input. -/
theorem C7_failed_begin_only_cfg_witness :
    beginFFT { sample_rate := 22050 } c7Before =
      ({ c7Before with cfg := { sample_rate := 22050 } }, false, []) :=
  C7_failed_begin_only_cfg { sample_rate := 22050 } c7Before (by decide)

/-- C8: `frequency(bin)` equals `bin * sample_rate / len` — exact in this
rational model of the float computation, hence in particular exact (an
integer) whenever `len` divides `bin * sample_rate`; the dominant result
and every non-sentinel entry of the top-N array carry the frequency of
their own bin. -/
theorem C8_frequency (bin sample_rate len N : Nat) (mag : Nat → Rat)
    (hlen : 0 < len) :
    frequency bin sample_rate len = (bin : Rat) * sample_rate / len ∧
    (len ∣ bin * sample_rate →
      frequency bin sample_rate len = ((bin * sample_rate / len : Nat) : Rat)) ∧
    (result mag len sample_rate).frequency =
      frequency (result mag len sample_rate).bin sample_rate len ∧
    (∀ r ∈ resultArray mag len sample_rate N, r.magnitude ≠ -1000000 →
      r.frequency = frequency r.bin sample_rate len) := by
  refine ⟨rfl, ?_, rfl, ?_⟩
  · intro hdvd
    rw [frequency, Nat.cast_div hdvd]
    · push_cast
      ring
    · exact_mod_cast hlen.ne'
  · intro r hr hmag
    simp only [resultArray] at hr
    rcases mem_resultArrayAux mag len sample_rate r _ _ _ hr with ⟨i, hi⟩ | hinit
    · rw [hi]
    · rw [List.eq_of_mem_replicate hinit] at hmag
      exact absurd rfl hmag

/-- C8 witness: `bin = 2`, `sample_rate = 8000`, `len = 8` — the frequency
is the integer 2000, and the dominant result on the bin-2 peak spectrum
carries its bin's frequency. -/
theorem C8_frequency_witness :
    frequency 2 8000 8 = ((2 * 8000 / 8 : Nat) : Rat) ∧
    (result magPeak2 8 8000).frequency =
      frequency (result magPeak2 8 8000).bin 8000 8 := by
  have h := C8_frequency 2 8000 8 3 magPeak2 (by decide)
  exact ⟨h.2.1 ⟨2000, by norm_num⟩, h.2.2.1⟩

/-- C10: the power-of-two check accepts 0 — `x & (x-1)` on `uint16_t`
computes `0 & 65535 = 0` — so `begin` with a zero window length is not
rejected as a configuration error and proceeds to start the driver. -/
theorem C10_zero_len_accepted (info : AudioFFTConfig) (s : FFTState)
    (h : s.len = 0) :
    isPowerOfTwo 0 = true ∧
    (beginFFT info s).2.2 = [Event.driverBegin 0] ∧
    (beginFFT info s).1.driver.started = true ∧
    (beginFFT info s).2.1 = true := by
  have hp0 : isPowerOfTwo 0 = true := by decide
  refine ⟨hp0, ?_, ?_, ?_⟩ <;>
    simp [beginFFT, hp0, h, DriverState.beginDriver, DriverState.isValid]

/-- C9: the fill cursor is 0 after a successful `begin`, is reset to 0
immediately after a transform is triggered (`fft()`), and stays in
`[0, len)` across every ingest (`write`) call whose starting cursor is in
`[0, len)` — the window length itself being unchanged by the call. -/
theorem C9_cursor_invariant :
    (∀ info s, (beginFFT info s).2.1 = true → (beginFFT info s).1.current_pos = 0) ∧
    (∀ now s, (fftStep now s).1.current_pos = 0) ∧
    (∀ dataT n now s, s.current_pos < s.len →
      (write dataT n now s).1.1.current_pos < s.len ∧
      (write dataT n now s).1.1.len = s.len) := by
  refine ⟨?_, fun now s => rfl, fun dataT n now s h => write_state dataT n now s h⟩
  intro info s h
  by_cases hp : isPowerOfTwo s.len
  · simp [beginFFT, hp]
  · rw [beginFFT_of_not_pow2 info s (Bool.of_not_eq_true hp)] at h
    simp at h

/-- C9 witness: a successful `begin` with window length 4 leaves the cursor
at 0, and an 8-byte `write` on `s5` keeps the cursor below the window
length. -/
theorem C9_cursor_invariant_witness :
    (beginFFT {} { len := 4 }).2.1 = true ∧
    (beginFFT {} { len := 4 }).1.current_pos = 0 ∧
    (write (fun _ => 0) 8 42 s5).1.1.current_pos < 4 := by
  refine ⟨by decide, C9_cursor_invariant.1 {} { len := 4 } (by decide), ?_⟩
  exact (C9_cursor_invariant.2.2 (fun _ => 0) 8 42 s5 (by decide)).1

/-- C10 witness: the fresh pipeline with window length 0. -/
theorem C10_zero_len_accepted_witness :
    (beginFFT {} { len := 0 }).2.1 = true ∧ isPowerOfTwo 0 = true := by
  have h := C10_zero_len_accepted {} { len := 0 } rfl
  exact ⟨h.2.2.2, h.1⟩

end AudioTools
